import Mathlib

/-
  Shallow embedding of the ChronusQ Fock-assembly core:

  * `MatAdd` — the generic weighted matrix-combination primitive
    (src/include/realtime/fock.hpp, second document, lines 90-112);
  * `SingleSlater<T>::formFock` / `formGD` for the two template
    instantiations T = double and T = dcomplex
    (src/unnamed/part_000, lines 41-153);
  * `RealTime<_SSTyp,T>::formFock` (src/include/realtime/fock.hpp,
    first document, lines 49-57).

  Doubles are idealized as rationals (`ℚ`); `dcomplex` values are pairs of
  rationals (`Cplx`).  Dense column-major matrix buffers are flat maps
  `Nat → α`; the external two-body contraction engine, the perturbation
  source and the Set/GetMatRE/IM helpers are not part of the shown source
  and are modelled from the spec where needed (see the doc comments).
-/

namespace ChronusQ

/-- A flat, contiguous memory buffer of scalars, addressed by a
column-major offset `i + j * LD`; mirrors the raw pointers of the source. -/
abbrev Buf (α : Type) := Nat → α

/-- Model of the `dcomplex` scalar type: a real and an imaginary rational. -/
structure Cplx where
  re : ℚ
  im : ℚ
deriving DecidableEq

instance : Zero Cplx := ⟨⟨0, 0⟩⟩

instance : Add Cplx := ⟨fun x y => ⟨x.re + y.re, x.im + y.im⟩⟩

instance : Mul Cplx := ⟨fun x y => ⟨x.re * y.re - x.im * y.im, x.re * y.im + x.im * y.re⟩⟩

/-- Conversion `T(c)` of a real scalar into `dcomplex`; also the implicit
promotion a real operand undergoes in a mixed-type `MatAdd` product. -/
def Cplx.ofQ (q : ℚ) : Cplx := ⟨q, 0⟩

/-- Product of a `dcomplex` scale and a `dcomplex` element. -/
def mulCC (a b : Cplx) : Cplx := a * b

/-- Product of a `dcomplex` scale and a `double` element: the real operand is
promoted to `dcomplex` (mixed-type `MatAdd` instantiation, fock.hpp line 114). -/
def mulCQ (a : Cplx) (b : ℚ) : Cplx := a * Cplx.ofQ b

/-- Product of a `double` scale and a `double` element. -/
def mulQQ (a b : ℚ) : ℚ := a * b

/-- One column of the `MatAdd` loop nest (fock.hpp lines 103-105): write
`v i` into flat offset `i + c` for every row `i < M`.  The written value
depends only on the inputs `A`, `B`, never on the partially-updated `C`. -/
def writeCol {F3 : Type} (M : Nat) (v : Nat → F3) (c : Nat) (g : Buf F3) : Buf F3 :=
  (List.range M).foldl (fun acc i => Function.update acc (i + c) (v i)) g

/-- The body of the generic `MatAdd` template (fock.hpp lines 96-110): for
each column `j < N` and row `i < M`, `C[i + j*LDC] = ALPHA*A[i + j*LDA] +
BETA*B[i + j*LDB]`.  The element products are supplied as `m1`, `m2` so
that the three operand scalar types may differ, as in the C++ template. -/
def matAddLoop {F1 F2 F3 S1 S2 : Type} [Add F3]
    (m1 : S1 → F1 → F3) (m2 : S2 → F2 → F3)
    (M N : Nat) (ALPHA : S1) (A : Buf F1) (LDA : Nat)
    (BETA : S2) (B : Buf F2) (LDB : Nat) (C : Buf F3) (LDC : Nat) : Buf F3 :=
  (List.range N).foldl
    (fun Cacc j =>
      writeCol M (fun i => m1 ALPHA (A (i + j * LDA)) + m2 BETA (B (i + j * LDB)))
        (j * LDC) Cacc)
    C

/-- `MatAdd` (fock.hpp lines 90-112).  The leading `assert(TRANSA == 'N' and
TRANSB == 'N')` is modelled by returning `none` (abnormal termination) when
a transpose is requested, and the updated `C` buffer otherwise. -/
def MatAdd {F1 F2 F3 S1 S2 : Type} [Add F3]
    (m1 : S1 → F1 → F3) (m2 : S2 → F2 → F3)
    (TRANSA TRANSB : Char) (M N : Nat) (ALPHA : S1) (A : Buf F1) (LDA : Nat)
    (BETA : S2) (B : Buf F2) (LDB : Nat) (C : Buf F3) (LDC : Nat) : Option (Buf F3) :=
  if TRANSA = 'N' ∧ TRANSB = 'N' then
    some (matAddLoop m1 m2 M N ALPHA A LDA BETA B LDB C LDC)
  else
    none

/-- A counted `for` loop over component indices `start ≤ i < start + n`
updating the `i`-th entry of an indexed family in place. -/
def forRange {α : Type} (start n : Nat) (h : Nat → α → α) (g : Nat → α) : Nat → α :=
  (List.range' start n).foldl (fun acc i => Function.update acc i (h i (acc i))) g

/-- Negligibility threshold for the exact-exchange scale
(`std::abs(xHFX) > 1e-12`, part_000 lines 110 and 133). -/
def exchangeThresh : ℚ := 1 / 10 ^ 12

/-- Negligibility threshold for a field-axis amplitude
(`std::abs(dipole[iXYZ]) > 1e-10`, part_000 line 68). -/
def fieldThresh : ℚ := 1 / 10 ^ 10

/-- Effect of `memset(p, 0, n * sizeof(T))`: the first `n` scalars of the
buffer become zero (the all-zero bit pattern is the zero scalar). -/
def zeroFirst {α : Type} [Zero α] (n : Nat) (b : Buf α) : Buf α :=
  fun k => if k < n then 0 else b k

/-- Modelled from the spec: the external two-body contraction engine
(`aoints.twoBodyContract`, not part of the shown source) processes each
(density, destination, flag, kind) request by accumulating the contraction
result for that density and operator kind into the destination's NB×NB
block.  `res` stands for the engine's contraction result. -/
def engineAccum {α : Type} [Add α] (n : Nat) (dst res : Buf α) : Buf α :=
  fun k => if k < n then dst k + res k else dst k

/-- Modelled from the spec: `GetMatRE('N',NB,NB,1.,A,NB,B,NB)` (not part of
the shown source) folds the real content of the complex matrix `A` into the
real matrix `B` over the NB×NB block. -/
def getMatRE (NB : Nat) (src : Buf Cplx) (dst : Buf ℚ) : Buf ℚ :=
  fun k => if k < NB * NB then (src k).re else dst k

/-- Modelled from the spec: `SetMatRE('N',NB,NB,alpha,A,NB,B,NB)` (not part
of the shown source) copies the real matrix `alpha*A` onto the real axis of
the complex matrix `B` over the NB×NB block. -/
def setMatRE (NB : Nat) (alpha : ℚ) (src : Buf ℚ) (dst : Buf Cplx) : Buf Cplx :=
  fun k => if k < NB * NB then ⟨alpha * src k, (dst k).im⟩ else dst k

/-- Modelled from the spec: `SetMatIM('N',NB,NB,alpha,A,NB,B,NB)` (not part
of the shown source) copies the real matrix `alpha*A` onto the imaginary
axis of the complex matrix `B` over the NB×NB block — the non-scalar core
Hamiltonian components live on a different numeric axis than the scalar. -/
def setMatIM (NB : Nat) (alpha : ℚ) (src : Buf ℚ) (dst : Buf Cplx) : Buf Cplx :=
  fun k => if k < NB * NB then ⟨(dst k).re, alpha * src k⟩ else dst k

/-- One event of the shared memory allocator (`this->memManager`,
external): a transient typed allocation of `count` scalars, or a release. -/
inductive MMEvent
  | malloc (count : Nat)
  | free
deriving DecidableEq

/-- Operator kind of one two-body contraction request (part_000 lines
106-116). -/
inductive TBKind
  | COULOMB
  | EXCHANGE
deriving DecidableEq

/-- Operator kinds of the contraction request list built by `formGD`
(part_000 lines 106-116): always one COULOMB request against the scalar
density, plus one EXCHANGE request per `K` component when `|xHFX|` exceeds
the negligibility threshold. -/
def formGD_contractKinds (xHFX : ℚ) (nK : Nat) : List TBKind :=
  [TBKind.COULOMB] ++
    (if |xHFX| > exchangeThresh then (List.range nK).map (fun _ => TBKind.EXCHANGE) else [])

/-- State of a `SingleSlater<dcomplex>` object as `formFock` / `formGD`
see it: component counts, the component collections (flat column-major
buffers), the always-real canonical Coulomb storage `JScalar`, the real
core-Hamiltonian and dipole integral matrices, and the allocator event
log. -/
structure CState where
  NB : Nat
  nFock : Nat
  nK : Nat
  nCoreH : Nat
  onePDM : Nat → Buf Cplx
  deltaOnePDM : Nat → Buf Cplx
  fock : Nat → Buf Cplx
  GD : Nat → Buf Cplx
  K : Nat → Buf Cplx
  JScalar : Buf ℚ
  coreH : Nat → Buf ℚ
  lenElecDipole : Nat → Buf ℚ
  mmLog : List MMEvent

/-- State of a `SingleSlater<double>` object: every buffer is real, and
`JScalar` is the very buffer `JContract` aliases (part_000 lines 96-97). -/
structure RState where
  NB : Nat
  nFock : Nat
  nK : Nat
  onePDM : Nat → Buf ℚ
  deltaOnePDM : Nat → Buf ℚ
  fock : Nat → Buf ℚ
  GD : Nat → Buf ℚ
  K : Nat → Buf ℚ
  JScalar : Buf ℚ

/-- Content of the Coulomb accumulation buffer `JContract` just before the
contraction request is issued, for `T = double` (part_000 lines 94-104):
`JContract` aliases `JScalar`, and is zeroed unless incrementing. -/
def JContractPre_real (increment : Bool) (s : RState) : Buf ℚ :=
  if increment = false then zeroFirst (s.NB * s.NB) s.JScalar else s.JScalar

/-- Content of the Coulomb accumulation buffer `JContract` just before the
contraction request is issued, for `T = dcomplex` (part_000 lines 94-104):
a transient allocation holding arbitrary content `fresh`, always zeroed
because `not std::is_same<double,T>::value` holds. -/
def JContractPre_cplx (increment : Bool) (NB : Nat) (fresh : Buf Cplx) : Buf Cplx :=
  zeroFirst (NB * NB) fresh

/-- `SingleSlater<T>::formGD(increment, xHFX)` for `T = double`
(part_000 lines 86-153).  `coulR` and `exchR` are the (opaque) contraction
results of the external engine for a given density matrix.  The branch at
lines 120-129 is skipped because `std::is_same<double,T>::value` holds, and
`JContract` aliases `JScalar` throughout. -/
def formGD_real (coulR exchR : Buf ℚ → Buf ℚ) (increment : Bool) (xHFX : ℚ)
    (s : RState) : RState :=
  let contract1PDM : Nat → Buf ℚ := if increment then s.deltaOnePDM else s.onePDM
  let NB := s.NB
  let NB2 := NB * NB
  let JContract1 := JContractPre_real increment s
  let K1 := if |xHFX| > exchangeThresh ∧ increment = false then
      forRange 0 s.nK (fun _i Ki => zeroFirst NB2 Ki) s.K
    else s.K
  let JContract2 := engineAccum NB2 JContract1 (coulR (contract1PDM 0))
  let K2 := if |xHFX| > exchangeThresh then
      forRange 0 s.nK (fun i Ki => engineAccum NB2 Ki (exchR (contract1PDM i))) K1
    else K1
  let GD1 := if |xHFX| > exchangeThresh then
      forRange 0 s.nK
        (fun i GDi => matAddLoop mulQQ mulQQ NB NB (0 : ℚ) GDi NB (-xHFX) (K2 i) NB GDi NB)
        s.GD
    else
      forRange 0 s.nFock (fun _i GDi => zeroFirst NB2 GDi) s.GD
  let GD2 := Function.update GD1 0
      (matAddLoop mulQQ mulQQ NB NB (1 : ℚ) (GD1 0) NB (2 : ℚ) JContract2 NB (GD1 0) NB)
  { s with K := K2, JScalar := JContract2, GD := GD2 }

/-- `SingleSlater<T>::formGD(increment, xHFX)` for `T = dcomplex`
(part_000 lines 86-153).  `coulC` and `exchC` are the engine's contraction
results; `fresh` is the arbitrary content of the transient `JContract`
buffer handed out by the allocator (line 99), which is folded back into the
real `JScalar` (lines 120-127) and freed (line 128) before return. -/
def formGD_cplx (coulC exchC : Buf Cplx → Buf Cplx) (increment : Bool) (xHFX : ℚ)
    (fresh : Buf Cplx) (s : CState) : CState :=
  let contract1PDM : Nat → Buf Cplx := if increment then s.deltaOnePDM else s.onePDM
  let NB := s.NB
  let NB2 := NB * NB
  let log1 := s.mmLog ++ [MMEvent.malloc NB2]
  let JContract1 := JContractPre_cplx increment NB fresh
  let K1 := if |xHFX| > exchangeThresh ∧ increment = false then
      forRange 0 s.nK (fun _i Ki => zeroFirst NB2 Ki) s.K
    else s.K
  let JContract2 := engineAccum NB2 JContract1 (coulC (contract1PDM 0))
  let K2 := if |xHFX| > exchangeThresh then
      forRange 0 s.nK (fun i Ki => engineAccum NB2 Ki (exchC (contract1PDM i))) K1
    else K1
  let JContract3 := if increment = false then JContract2
    else
      matAddLoop mulCC mulCQ NB NB (Cplx.ofQ 1) JContract2 NB (Cplx.ofQ 1) s.JScalar NB
        JContract2 NB
  let JScalar1 := getMatRE NB JContract3 s.JScalar
  let log2 := log1 ++ [MMEvent.free]
  let GD1 := if |xHFX| > exchangeThresh then
      forRange 0 s.nK
        (fun i GDi =>
          matAddLoop mulCC mulCC NB NB (Cplx.ofQ 0) GDi NB (Cplx.ofQ (-xHFX)) (K2 i) NB GDi NB)
        s.GD
    else
      forRange 0 s.nFock (fun _i GDi => zeroFirst NB2 GDi) s.GD
  let GD2 := Function.update GD1 0
      (matAddLoop mulCC mulCQ NB NB (Cplx.ofQ 1) (GD1 0) NB (Cplx.ofQ 2) JScalar1 NB
        (GD1 0) NB)
  { s with K := K2, JScalar := JScalar1, GD := GD2, mmLog := log2 }

/-- Modelled from the spec: the external perturbation descriptor — a set of
configured field components plus the evaluated amplitude along each of the
three spatial axes (`pert.fields.size()` and `pert.getAmp()`). -/
structure EMPerturbation where
  nFields : Nat
  amp0 : ℚ
  amp1 : ℚ
  amp2 : ℚ
deriving DecidableEq

/-- The amplitude triple `pert.getAmp()` read per axis. -/
def EMPerturbation.getAmp (p : EMPerturbation) : Nat → ℚ :=
  fun i => if i = 0 then p.amp0 else if i = 1 then p.amp1 else p.amp2

/-- The perturbation block of `formFock` (part_000 lines 64-71): for each
of the three axes whose amplitude magnitude exceeds the threshold, add
`-2*dipole[iXYZ]` times the length-gauge electric dipole integral for that
axis onto the scalar Fock component. -/
def fieldStep (NB : Nat) (amp : Nat → ℚ) (dip : Nat → Buf ℚ) (f0 : Buf Cplx) : Buf Cplx :=
  (List.range 3).foldl
    (fun acc iXYZ =>
      if |amp iXYZ| > fieldThresh then
        matAddLoop mulCC mulCQ NB NB (Cplx.ofQ 1) acc NB (Cplx.ofQ (-(2 * amp iXYZ)))
          (dip iXYZ) NB acc NB
      else acc)
    f0

/-- Number of times `pert.getAmp()` is invoked during the perturbation
block of `SingleSlater<T>::formFock` (part_000 lines 64-71): once when the
field list is non-empty — the call sits outside the per-axis loop — and
never otherwise. -/
def formFock_ampEvals (pert : EMPerturbation) : Nat :=
  if pert.nFields ≠ 0 then 1 else 0

/-- Fock pipeline step 2 (part_000 line 51): zero out the first NB² scalars
of every Fock component buffer. -/
def fockStepZero (NB2 nFock : Nat) (f : Nat → Buf Cplx) : Nat → Buf Cplx :=
  forRange 0 nFock (fun _i fi => zeroFirst NB2 fi) f

/-- Fock pipeline step 3 (part_000 lines 54-56): copy the core Hamiltonian
over — the scalar component onto the real axis of `fock[SCALAR]`, and each
remaining component `1 ≤ i < coreH.size()` onto the imaginary axis of
`fock[i]`. -/
def fockStepCore (NB nCoreH : Nat) (coreH : Nat → Buf ℚ) (f : Nat → Buf Cplx) :
    Nat → Buf Cplx :=
  forRange 1 (nCoreH - 1) (fun i fi => setMatIM NB 1 (coreH i) fi)
    (Function.update f 0 (setMatRE NB 1 (coreH 0) (f 0)))

/-- Fock pipeline step 4 (part_000 lines 59-61): add the perturbation
tensor G[D] onto every Fock component with weight `T(1.)` on both
operands. -/
def fockStepGD (NB nFock : Nat) (GD : Nat → Buf Cplx) (f : Nat → Buf Cplx) :
    Nat → Buf Cplx :=
  forRange 0 nFock
    (fun i fi => matAddLoop mulCC mulCC NB NB (Cplx.ofQ 1) fi NB (Cplx.ofQ 1) (GD i) NB fi NB)
    f

/-- Fock pipeline step 5 (part_000 lines 64-71): when the perturbation
descriptor has configured fields, run the per-axis dipole block on the
scalar Fock component. -/
def fockStepField (NB : Nat) (pert : EMPerturbation) (dip : Nat → Buf ℚ)
    (f : Nat → Buf Cplx) : Nat → Buf Cplx :=
  if pert.nFields ≠ 0 then
    Function.update f 0 (fieldStep NB pert.getAmp dip (f 0))
  else f

/-- `SingleSlater<T>::formFock(pert, increment, xHFX)` for `T = dcomplex`
(part_000 lines 41-77): form G[D], zero the Fock storage, copy the core
Hamiltonian onto the real (scalar component) and imaginary (remaining
components) axes, add G[D] with unit weights, then apply the perturbation
block. -/
def formFock_cplx (coulC exchC : Buf Cplx → Buf Cplx) (pert : EMPerturbation)
    (increment : Bool) (xHFX : ℚ) (fresh : Buf Cplx) (s : CState) : CState :=
  let s1 := formGD_cplx coulC exchC increment xHFX fresh s
  { s1 with
      fock := fockStepField s.NB pert s.lenElecDipole
        (fockStepGD s.NB s.nFock s1.GD
          (fockStepCore s.NB s.nCoreH s.coreH
            (fockStepZero (s.NB * s.NB) s.nFock s1.fock))) }

/-- Modelled from the spec: the state the real-time propagation layer reads
— the perturbation source, which yields the field descriptor valid at a
given time (`pert.getPert(time)`), and the stored current propagation time
`curState.xTime`. -/
structure RTState where
  pertSource : ℚ → EMPerturbation
  xTime : ℚ

/-- `RealTime<_SSTyp,T>::formFock(increment, t)` (realtime/fock.hpp lines
49-57): obtain the perturbation descriptor `pert.getPert(curState.xTime)`
and invoke `propagator_.formFock(pert_t, increment)`.  The value returned
here is the (descriptor, increment) argument pair forwarded to the Fock
assembler. -/
def RealTime_formFock (rt : RTState) (increment : Bool) (t : ℚ) : EMPerturbation × Bool :=
  (rt.pertSource rt.xTime, increment)


/-
  Lemmas.  First the arithmetic of the embedded scalar type, then the
  pointwise evaluation of the loop helpers, then the behaviour of the
  embedded routines, and finally the claim theorems.
-/

theorem Cplx.zero_re : (0 : Cplx).re = 0 := rfl

theorem Cplx.zero_im : (0 : Cplx).im = 0 := rfl

theorem Cplx.add_re (x y : Cplx) : (x + y).re = x.re + y.re := rfl

theorem Cplx.add_im (x y : Cplx) : (x + y).im = x.im + y.im := rfl

theorem Cplx.mul_re (x y : Cplx) : (x * y).re = x.re * y.re - x.im * y.im := rfl

theorem Cplx.mul_im (x y : Cplx) : (x * y).im = x.re * y.im + x.im * y.re := rfl

theorem Cplx.ofQ_re (q : ℚ) : (Cplx.ofQ q).re = q := rfl

theorem Cplx.ofQ_im (q : ℚ) : (Cplx.ofQ q).im = 0 := rfl

theorem Cplx.ext_iff {x y : Cplx} : x = y ↔ x.re = y.re ∧ x.im = y.im := by
  cases x; cases y; simp

theorem Cplx.ofQ_one_mul (z : Cplx) : Cplx.ofQ 1 * z = z := by
  cases z
  rw [Cplx.ext_iff]
  constructor <;> simp [Cplx.mul_re, Cplx.mul_im, Cplx.ofQ]

theorem Cplx.ofQ_zero_mul (z : Cplx) : Cplx.ofQ 0 * z = 0 := by
  cases z
  rw [Cplx.ext_iff]
  constructor <;> simp [Cplx.mul_re, Cplx.mul_im, Cplx.ofQ, Cplx.zero_re, Cplx.zero_im]

theorem Cplx.ofQ_mul_ofQ (a b : ℚ) : Cplx.ofQ a * Cplx.ofQ b = Cplx.ofQ (a * b) := by
  rw [Cplx.ext_iff]
  constructor <;> simp [Cplx.mul_re, Cplx.mul_im, Cplx.ofQ]

theorem Cplx.zero_add (z : Cplx) : 0 + z = z := by
  cases z
  rw [Cplx.ext_iff]
  constructor <;> simp [Cplx.add_re, Cplx.add_im, Cplx.zero_re, Cplx.zero_im]

theorem Cplx.add_zero (z : Cplx) : z + 0 = z := by
  cases z
  rw [Cplx.ext_iff]
  constructor <;> simp [Cplx.add_re, Cplx.add_im, Cplx.zero_re, Cplx.zero_im]

theorem forRange_eval {α : Type} (start n : Nat) (h : Nat → α → α) (g : Nat → α)
    (j : Nat) :
    forRange start n h g j =
      if start ≤ j ∧ j < start + n then h j (g j) else g j := by
  induction n generalizing start g with
  | zero =>
      rw [forRange]
      simp only [List.range', List.foldl_nil]
      rw [if_neg (by omega)]
  | succ n ih =>
      have hrange : List.range' start (n + 1) = start :: List.range' (start + 1) n :=
        List.range'_succ start n 1 ▸ rfl
      rw [forRange, hrange]
      simp only [List.foldl_cons]
      have h2 := ih (start + 1) (Function.update g start (h start (g start)))
      rw [forRange] at h2
      rw [h2]
      by_cases hj : j = start
      · subst hj
        have c1 : ¬(j + 1 ≤ j ∧ j < j + 1 + n) := by omega
        rw [if_neg c1, Function.update_same, if_pos (by omega)]
      · rw [Function.update_noteq hj]
        by_cases h1 : start + 1 ≤ j ∧ j < start + 1 + n
        · rw [if_pos h1, if_pos (by omega)]
        · rw [if_neg h1, if_neg (by omega)]

theorem writeCol_eval {F3 : Type} (M : Nat) (v : Nat → F3) (c : Nat) (g : Buf F3)
    (k : Nat) :
    writeCol M v c g k =
      if c ≤ k ∧ k < c + M then v (k - c) else g k := by
  induction M generalizing g with
  | zero =>
      rw [writeCol]
      simp only [List.range_zero, List.foldl_nil]
      rw [if_neg (by omega)]
  | succ M ih =>
      rw [writeCol, List.range_succ, List.foldl_append]
      simp only [List.foldl_cons, List.foldl_nil]
      rw [show (List.range M).foldl
            (fun acc i => Function.update acc (i + c) (v i)) g = writeCol M v c g from rfl]
      by_cases hk : k = M + c
      · subst hk
        rw [Function.update_same]
        rw [if_pos (by omega)]
        congr 1
        omega
      · rw [Function.update_noteq hk, ih g]
        by_cases h1 : c ≤ k ∧ k < c + M
        · rw [if_pos h1, if_pos (by omega)]
        · rw [if_neg h1, if_neg (by omega)]

/-- An entry written by the `MatAdd` loop: provided the leading dimension of
`C` accommodates the row count (`M ≤ LDC`, part of the column-major data
model), entry `(i, j)` of the result is
`ALPHA*A[i + j*LDA] + BETA*B[i + j*LDB]`. -/
theorem matAddLoop_hit {F1 F2 F3 S1 S2 : Type} [Add F3]
    (m1 : S1 → F1 → F3) (m2 : S2 → F2 → F3)
    (M N : Nat) (ALPHA : S1) (A : Buf F1) (LDA : Nat)
    (BETA : S2) (B : Buf F2) (LDB : Nat) (C : Buf F3) (LDC : Nat)
    (i j : Nat) (hM : M ≤ LDC) (hi : i < M) (hj : j < N) :
    matAddLoop m1 m2 M N ALPHA A LDA BETA B LDB C LDC (i + j * LDC) =
      m1 ALPHA (A (i + j * LDA)) + m2 BETA (B (i + j * LDB)) := by
  induction N generalizing C with
  | zero => omega
  | succ N ih =>
      rw [matAddLoop, List.range_succ, List.foldl_append]
      simp only [List.foldl_cons, List.foldl_nil]
      rw [show ∀ (C0 : Buf F3), (List.range N).foldl
            (fun Cacc jj =>
              writeCol M (fun ii => m1 ALPHA (A (ii + jj * LDA)) + m2 BETA (B (ii + jj * LDB)))
                (jj * LDC) Cacc) C0 = matAddLoop m1 m2 M N ALPHA A LDA BETA B LDB C0 LDC
            from fun _ => rfl]
      rw [writeCol_eval]
      by_cases hjN : j = N
      · subst hjN
        rw [if_pos (by set t := j * LDC with ht; omega)]
        have harg : i + j * LDC - j * LDC = i := by
          set t := j * LDC with ht
          omega
        rw [harg]
      · have hjN' : j < N := by omega
        have hiLDC : i < LDC := by omega
        have hlt : i + j * LDC < N * LDC := by
          have e1 : i + j * LDC < (j + 1) * LDC := by
            have e0 : (j + 1) * LDC = LDC + j * LDC := by ring
            rw [e0]
            exact Nat.add_lt_add_right hiLDC _
          exact lt_of_lt_of_le e1 (Nat.mul_le_mul_right LDC (by omega))
        rw [if_neg (by intro hcon; exact absurd hcon.1 (Nat.not_le.mpr hlt))]
        exact ih _ hjN'

/-- An entry the `MatAdd` loop never writes is left with its prior `C`
content. -/
theorem matAddLoop_miss {F1 F2 F3 S1 S2 : Type} [Add F3]
    (m1 : S1 → F1 → F3) (m2 : S2 → F2 → F3)
    (M N : Nat) (ALPHA : S1) (A : Buf F1) (LDA : Nat)
    (BETA : S2) (B : Buf F2) (LDB : Nat) (C : Buf F3) (LDC : Nat)
    (k : Nat) (hk : ∀ i j, i < M → j < N → k ≠ i + j * LDC) :
    matAddLoop m1 m2 M N ALPHA A LDA BETA B LDB C LDC k = C k := by
  induction N generalizing C with
  | zero => rfl
  | succ N ih =>
      rw [matAddLoop, List.range_succ, List.foldl_append]
      simp only [List.foldl_cons, List.foldl_nil]
      rw [show ∀ (C0 : Buf F3), (List.range N).foldl
            (fun Cacc jj =>
              writeCol M (fun ii => m1 ALPHA (A (ii + jj * LDA)) + m2 BETA (B (ii + jj * LDB)))
                (jj * LDC) Cacc) C0 = matAddLoop m1 m2 M N ALPHA A LDA BETA B LDB C0 LDC
            from fun _ => rfl]
      rw [writeCol_eval]
      rw [if_neg ?side]
      · exact ih _ (fun i j hi hj => hk i j hi (by omega))
      · intro hmem
        have h1 : k - N * LDC < M := by
          set t := N * LDC with ht
          omega
        have hEq : k = (k - N * LDC) + N * LDC := by
          set t := N * LDC with ht
          omega
        exact hk (k - N * LDC) N h1 (Nat.lt_succ_self N) hEq

/-- NB×NB square use of the `MatAdd` loop (all leading dimensions equal to
NB, as in every call inside `formGD` / `formFock`): inside the matrix block
the result at flat offset `k` combines the operands at the same offset. -/
theorem matAddLoop_sq_lt {F1 F2 F3 S1 S2 : Type} [Add F3]
    (m1 : S1 → F1 → F3) (m2 : S2 → F2 → F3) (NB : Nat) (ALPHA : S1) (A : Buf F1)
    (BETA : S2) (B : Buf F2) (C : Buf F3) (k : Nat) (hk : k < NB * NB) :
    matAddLoop m1 m2 NB NB ALPHA A NB BETA B NB C NB k = m1 ALPHA (A k) + m2 BETA (B k) := by
  have hNB : 0 < NB := by
    rcases Nat.eq_zero_or_pos NB with h | h
    · subst h; simp at hk
    · exact h
  have hi : k % NB < NB := Nat.mod_lt _ hNB
  have hj : k / NB < NB := by
    rw [Nat.div_lt_iff_lt_mul hNB]
    exact hk
  have hdec : k % NB + k / NB * NB = k := Nat.mod_add_div' k NB
  have h := matAddLoop_hit m1 m2 NB NB ALPHA A NB BETA B NB C NB (k % NB) (k / NB)
    (le_refl NB) hi hj
  rw [hdec] at h
  exact h

/-- NB×NB square use of the `MatAdd` loop: offsets at or beyond NB² are
outside the matrix block and keep their prior `C` content. -/
theorem matAddLoop_sq_ge {F1 F2 F3 S1 S2 : Type} [Add F3]
    (m1 : S1 → F1 → F3) (m2 : S2 → F2 → F3) (NB : Nat) (ALPHA : S1) (A : Buf F1)
    (BETA : S2) (B : Buf F2) (C : Buf F3) (k : Nat) (hk : NB * NB ≤ k) :
    matAddLoop m1 m2 NB NB ALPHA A NB BETA B NB C NB k = C k := by
  apply matAddLoop_miss
  intro i j hi hj heq
  have hlt : i + j * NB < NB * NB := by
    have e1 : i + j * NB < (j + 1) * NB := by
      have e0 : (j + 1) * NB = NB + j * NB := by ring
      rw [e0]
      exact Nat.add_lt_add_right hi _
    exact lt_of_lt_of_le e1 (Nat.mul_le_mul_right NB (by omega))
  rw [heq] at hk
  exact absurd hk (Nat.not_le.mpr hlt)

theorem formGD_cplx_NB (c e : Buf Cplx → Buf Cplx) (inc : Bool) (x : ℚ)
    (fr : Buf Cplx) (s : CState) : (formGD_cplx c e inc x fr s).NB = s.NB := rfl

theorem formGD_cplx_nFock (c e : Buf Cplx → Buf Cplx) (inc : Bool) (x : ℚ)
    (fr : Buf Cplx) (s : CState) : (formGD_cplx c e inc x fr s).nFock = s.nFock := rfl

theorem formGD_cplx_nK (c e : Buf Cplx → Buf Cplx) (inc : Bool) (x : ℚ)
    (fr : Buf Cplx) (s : CState) : (formGD_cplx c e inc x fr s).nK = s.nK := rfl

theorem formGD_cplx_nCoreH (c e : Buf Cplx → Buf Cplx) (inc : Bool) (x : ℚ)
    (fr : Buf Cplx) (s : CState) : (formGD_cplx c e inc x fr s).nCoreH = s.nCoreH := rfl

theorem formGD_cplx_onePDM (c e : Buf Cplx → Buf Cplx) (inc : Bool) (x : ℚ)
    (fr : Buf Cplx) (s : CState) : (formGD_cplx c e inc x fr s).onePDM = s.onePDM := rfl

theorem formGD_cplx_deltaOnePDM (c e : Buf Cplx → Buf Cplx) (inc : Bool) (x : ℚ)
    (fr : Buf Cplx) (s : CState) :
    (formGD_cplx c e inc x fr s).deltaOnePDM = s.deltaOnePDM := rfl

theorem formGD_cplx_fock (c e : Buf Cplx → Buf Cplx) (inc : Bool) (x : ℚ)
    (fr : Buf Cplx) (s : CState) : (formGD_cplx c e inc x fr s).fock = s.fock := rfl

theorem formGD_cplx_coreH (c e : Buf Cplx → Buf Cplx) (inc : Bool) (x : ℚ)
    (fr : Buf Cplx) (s : CState) : (formGD_cplx c e inc x fr s).coreH = s.coreH := rfl

theorem formGD_cplx_lenElecDipole (c e : Buf Cplx → Buf Cplx) (inc : Bool) (x : ℚ)
    (fr : Buf Cplx) (s : CState) :
    (formGD_cplx c e inc x fr s).lenElecDipole = s.lenElecDipole := rfl

/-- The canonical Coulomb storage after `formGD` for `T = dcomplex`: inside
the NB×NB block it holds the real part of the engine's Coulomb contraction
of the selected density, accumulated onto the prior `JScalar` content
exactly when incrementing. -/
theorem formGD_cplx_JScalar (c e : Buf Cplx → Buf Cplx) (inc : Bool) (x : ℚ)
    (fr : Buf Cplx) (s : CState) (k : Nat) (hk : k < s.NB * s.NB) :
    (formGD_cplx c e inc x fr s).JScalar k =
      (c ((if inc then s.deltaOnePDM else s.onePDM) 0) k).re +
        (if inc then s.JScalar k else 0) := by
  cases inc with
  | false =>
      simp only [formGD_cplx, Bool.false_eq_true, if_false, if_pos rfl]
      simp [getMatRE, engineAccum, JContractPre_cplx, zeroFirst, hk, Cplx.zero_add]
  | true =>
      simp only [formGD_cplx, if_pos rfl]
      rw [if_neg (by simp)]
      simp only [getMatRE, if_pos hk]
      rw [matAddLoop_sq_lt _ _ _ _ _ _ _ _ _ hk]
      simp [engineAccum, JContractPre_cplx, zeroFirst, hk, mulCC, mulCQ,
        Cplx.ofQ_one_mul, Cplx.zero_add, Cplx.add_re, Cplx.ofQ_re, Cplx.ofQ_im]

/-- With a negligible exchange scale, `formGD` (complex path) leaves the
exchange storage `K` untouched. -/
theorem formGD_cplx_K_small (c e : Buf Cplx → Buf Cplx) (inc : Bool) (x : ℚ)
    (fr : Buf Cplx) (s : CState) (hx : ¬(|x| > exchangeThresh)) :
    (formGD_cplx c e inc x fr s).K = s.K := by
  simp only [formGD_cplx]
  simp [hx]

/-- With a negligible exchange scale, `formGD` (complex path) zeroes every
`G[D]` component and then adds `2·J` into the scalar component only. -/
theorem formGD_cplx_GD_small (c e : Buf Cplx → Buf Cplx) (inc : Bool) (x : ℚ)
    (fr : Buf Cplx) (s : CState) (i k : Nat) (hx : ¬(|x| > exchangeThresh))
    (hi : i < s.nFock) (hk : k < s.NB * s.NB) :
    (formGD_cplx c e inc x fr s).GD i k =
      if i = 0 then Cplx.ofQ (2 * (formGD_cplx c e inc x fr s).JScalar k) else 0 := by
  have hGD : (formGD_cplx c e inc x fr s).GD =
      Function.update (forRange 0 s.nFock (fun _i GDi => zeroFirst (s.NB * s.NB) GDi) s.GD) 0
        (matAddLoop mulCC mulCQ s.NB s.NB (Cplx.ofQ 1)
          ((forRange 0 s.nFock (fun _i GDi => zeroFirst (s.NB * s.NB) GDi) s.GD) 0) s.NB
          (Cplx.ofQ 2) ((formGD_cplx c e inc x fr s).JScalar) s.NB
          ((forRange 0 s.nFock (fun _i GDi => zeroFirst (s.NB * s.NB) GDi) s.GD) 0) s.NB) := by
    simp only [formGD_cplx]
    rw [if_neg hx]
  rw [hGD]
  by_cases hi0 : i = 0
  · subst hi0
    rw [Function.update_same, if_pos rfl]
    rw [matAddLoop_sq_lt _ _ _ _ _ _ _ _ _ hk]
    rw [forRange_eval]
    rw [if_pos ⟨Nat.zero_le 0, by omega⟩]
    simp [zeroFirst, hk, mulCC, mulCQ, Cplx.ofQ_one_mul, Cplx.zero_add,
      Cplx.ofQ_mul_ofQ]
  · rw [Function.update_noteq hi0, if_neg hi0]
    rw [forRange_eval]
    rw [if_pos ⟨Nat.zero_le i, by omega⟩]
    simp [zeroFirst, hk]

/-- Components of `G[D]` beyond the exchange collection (and distinct from
the scalar) are never written by `formGD` (complex path) when exchange is
active. -/
theorem formGD_cplx_GD_stale (c e : Buf Cplx → Buf Cplx) (inc : Bool) (x : ℚ)
    (fr : Buf Cplx) (s : CState) (i : Nat) (hx : |x| > exchangeThresh)
    (hi0 : i ≠ 0) (hiK : s.nK ≤ i) :
    (formGD_cplx c e inc x fr s).GD i = s.GD i := by
  simp only [formGD_cplx]
  rw [Function.update_noteq hi0, if_pos hx]
  funext k
  rw [forRange_eval]
  rw [if_neg (by omega)]

/-- Non-incremental `formGD` (complex path) with active exchange: inside the
matrix block, the scalar `G[D]` component holds `−xHFX·K + 2·J` and each
other exchange component holds `−xHFX·K`, both built from fresh engine
contractions of the full density; components beyond the exchange collection
are untouched. -/
theorem formGD_cplx_GD_big_false (c e : Buf Cplx → Buf Cplx) (x : ℚ)
    (fr : Buf Cplx) (s : CState) (i k : Nat) (hx : |x| > exchangeThresh)
    (hnK : 0 < s.nK) (hk : k < s.NB * s.NB) :
    (formGD_cplx c e false x fr s).GD i k =
      if i = 0 then
        Cplx.ofQ (-x) * e (s.onePDM 0) k + Cplx.ofQ (2 * (c (s.onePDM 0) k).re)
      else if i < s.nK then Cplx.ofQ (-x) * e (s.onePDM i) k
      else s.GD i k := by
  have hJ : (formGD_cplx c e false x fr s).JScalar k = (c (s.onePDM 0) k).re := by
    rw [formGD_cplx_JScalar _ _ _ _ _ _ _ hk]
    simp
  have hK : ∀ m, m < s.nK →
      (formGD_cplx c e false x fr s).K m k = e (s.onePDM m) k := by
    intro m hm
    simp only [formGD_cplx]
    rw [if_pos hx, forRange_eval, if_pos ⟨Nat.zero_le m, by omega⟩]
    rw [if_pos ⟨hx, by trivial⟩, forRange_eval, if_pos ⟨Nat.zero_le m, by omega⟩]
    simp [engineAccum, zeroFirst, hk, Cplx.zero_add]
  have hGD : (formGD_cplx c e false x fr s).GD =
      Function.update
        (forRange 0 s.nK
          (fun m GDi => matAddLoop mulCC mulCC s.NB s.NB (Cplx.ofQ 0) GDi s.NB
            (Cplx.ofQ (-x)) ((formGD_cplx c e false x fr s).K m) s.NB GDi s.NB) s.GD) 0
        (matAddLoop mulCC mulCQ s.NB s.NB (Cplx.ofQ 1)
          ((forRange 0 s.nK
            (fun m GDi => matAddLoop mulCC mulCC s.NB s.NB (Cplx.ofQ 0) GDi s.NB
              (Cplx.ofQ (-x)) ((formGD_cplx c e false x fr s).K m) s.NB GDi s.NB) s.GD) 0)
          s.NB (Cplx.ofQ 2) ((formGD_cplx c e false x fr s).JScalar) s.NB
          ((forRange 0 s.nK
            (fun m GDi => matAddLoop mulCC mulCC s.NB s.NB (Cplx.ofQ 0) GDi s.NB
              (Cplx.ofQ (-x)) ((formGD_cplx c e false x fr s).K m) s.NB GDi s.NB) s.GD) 0)
          s.NB) := by
    simp only [formGD_cplx]
    rw [if_pos hx]
  rw [hGD]
  by_cases hi0 : i = 0
  · subst hi0
    rw [Function.update_same, if_pos rfl]
    rw [matAddLoop_sq_lt _ _ _ _ _ _ _ _ _ hk]
    rw [forRange_eval, if_pos ⟨Nat.zero_le 0, by omega⟩]
    rw [matAddLoop_sq_lt _ _ _ _ _ _ _ _ _ hk]
    rw [hJ, hK 0 hnK]
    simp [mulCC, mulCQ, Cplx.ofQ_one_mul, Cplx.ofQ_zero_mul, Cplx.zero_add,
      Cplx.ofQ_mul_ofQ]
  · rw [Function.update_noteq hi0, if_neg hi0]
    rw [forRange_eval]
    by_cases hiK : i < s.nK
    · rw [if_pos ⟨Nat.zero_le i, by omega⟩, if_pos hiK]
      rw [matAddLoop_sq_lt _ _ _ _ _ _ _ _ _ hk]
      rw [hK i hiK]
      simp [mulCC, Cplx.ofQ_zero_mul, Cplx.zero_add]
    · rw [if_neg (by omega), if_neg hiK]

theorem formGD_real_JScalar (cR eR : Buf ℚ → Buf ℚ) (inc : Bool) (x : ℚ)
    (s : RState) (k : Nat) (hk : k < s.NB * s.NB) :
    (formGD_real cR eR inc x s).JScalar k =
      (if inc then s.JScalar k else 0) + cR ((if inc then s.deltaOnePDM else s.onePDM) 0) k := by
  cases inc with
  | false =>
      simp only [formGD_real, Bool.false_eq_true, if_false]
      simp [engineAccum, JContractPre_real, zeroFirst, hk]
  | true =>
      simp only [formGD_real, if_pos rfl]
      have hpre : JContractPre_real true s = s.JScalar := by
        rw [JContractPre_real]
        simp
      simp [engineAccum, hpre, hk]

theorem formGD_real_K_small (cR eR : Buf ℚ → Buf ℚ) (inc : Bool) (x : ℚ)
    (s : RState) (hx : ¬(|x| > exchangeThresh)) :
    (formGD_real cR eR inc x s).K = s.K := by
  simp only [formGD_real]
  simp [hx]

theorem formGD_real_GD_small (cR eR : Buf ℚ → Buf ℚ) (inc : Bool) (x : ℚ)
    (s : RState) (i k : Nat) (hx : ¬(|x| > exchangeThresh))
    (hi : i < s.nFock) (hk : k < s.NB * s.NB) :
    (formGD_real cR eR inc x s).GD i k =
      if i = 0 then 2 * (formGD_real cR eR inc x s).JScalar k else 0 := by
  have hGD : (formGD_real cR eR inc x s).GD =
      Function.update (forRange 0 s.nFock (fun _i GDi => zeroFirst (s.NB * s.NB) GDi) s.GD) 0
        (matAddLoop mulQQ mulQQ s.NB s.NB (1 : ℚ)
          ((forRange 0 s.nFock (fun _i GDi => zeroFirst (s.NB * s.NB) GDi) s.GD) 0) s.NB
          (2 : ℚ) ((formGD_real cR eR inc x s).JScalar) s.NB
          ((forRange 0 s.nFock (fun _i GDi => zeroFirst (s.NB * s.NB) GDi) s.GD) 0) s.NB) := by
    simp only [formGD_real]
    rw [if_neg hx]
  rw [hGD]
  by_cases hi0 : i = 0
  · subst hi0
    rw [Function.update_same, if_pos rfl]
    rw [matAddLoop_sq_lt _ _ _ _ _ _ _ _ _ hk]
    rw [forRange_eval, if_pos ⟨Nat.zero_le 0, by omega⟩]
    simp [zeroFirst, hk, mulQQ]
  · rw [Function.update_noteq hi0, if_neg hi0]
    rw [forRange_eval, if_pos ⟨Nat.zero_le i, by omega⟩]
    simp [zeroFirst, hk]

theorem fockStepZero_eval (NB2 nFock : Nat) (f : Nat → Buf Cplx) (i k : Nat) :
    fockStepZero NB2 nFock f i k = if i < nFock ∧ k < NB2 then 0 else f i k := by
  rw [fockStepZero, forRange_eval]
  by_cases hi : i < nFock <;> by_cases hk : k < NB2 <;>
    simp [zeroFirst, hi, hk]

theorem fockStepCore_eval (NB nCoreH : Nat) (coreH : Nat → Buf ℚ) (f : Nat → Buf Cplx)
    (i k : Nat) (hk : k < NB * NB) :
    fockStepCore NB nCoreH coreH f i k =
      if i = 0 then ⟨coreH 0 k, (f 0 k).im⟩
      else if 1 ≤ i ∧ i < nCoreH then ⟨(f i k).re, coreH i k⟩
      else f i k := by
  rw [fockStepCore, forRange_eval]
  by_cases hi0 : i = 0
  · subst hi0
    rw [if_neg (by omega), Function.update_same, if_pos rfl]
    simp [setMatRE, hk]
  · rw [Function.update_noteq hi0, if_neg hi0]
    by_cases hir : 1 ≤ i ∧ i < 1 + (nCoreH - 1)
    · rw [if_pos hir, if_pos (⟨hir.1, by omega⟩ : 1 ≤ i ∧ i < nCoreH)]
      simp [setMatIM, hk]
    · rw [if_neg hir, if_neg (by omega : ¬(1 ≤ i ∧ i < nCoreH))]

theorem fockStepGD_eval (NB nFock : Nat) (GD f : Nat → Buf Cplx) (i k : Nat)
    (hk : k < NB * NB) :
    fockStepGD NB nFock GD f i k = if i < nFock then f i k + GD i k else f i k := by
  rw [fockStepGD, forRange_eval]
  by_cases hi : i < nFock
  · rw [if_pos ⟨Nat.zero_le i, by omega⟩, if_pos hi]
    rw [matAddLoop_sq_lt _ _ _ _ _ _ _ _ _ hk]
    simp [mulCC, Cplx.ofQ_one_mul]
  · rw [if_neg (by omega), if_neg hi]

theorem fockStepGD_ge (NB nFock : Nat) (GD f : Nat → Buf Cplx) (i k : Nat)
    (hk : NB * NB ≤ k) :
    fockStepGD NB nFock GD f i k = f i k := by
  rw [fockStepGD, forRange_eval]
  by_cases hi : 0 ≤ i ∧ i < 0 + nFock
  · rw [if_pos hi]
    exact matAddLoop_sq_ge _ _ _ _ _ _ _ _ _ hk
  · rw [if_neg hi]

theorem fockStepCore_ge (NB nCoreH : Nat) (coreH : Nat → Buf ℚ) (f : Nat → Buf Cplx)
    (i k : Nat) (hk : NB * NB ≤ k) :
    fockStepCore NB nCoreH coreH f i k = f i k := by
  rw [fockStepCore, forRange_eval]
  by_cases hir : 1 ≤ i ∧ i < 1 + (nCoreH - 1)
  · rw [if_pos hir]
    have hi0 : i ≠ 0 := by omega
    rw [setMatIM, if_neg (by omega), Function.update_noteq hi0]
  · rw [if_neg hir]
    by_cases hi0 : i = 0
    · subst hi0
      rw [Function.update_same, setMatRE, if_neg (by omega)]
    · rw [Function.update_noteq hi0]

theorem fieldStep_eval (NB : Nat) (amp : Nat → ℚ) (dip : Nat → Buf ℚ) (f0 : Buf Cplx)
    (k : Nat) (hk : k < NB * NB) :
    fieldStep NB amp dip f0 k =
      ((f0 k +
        (if |amp 0| > fieldThresh then Cplx.ofQ (-(2 * amp 0)) * Cplx.ofQ (dip 0 k) else 0)) +
        (if |amp 1| > fieldThresh then Cplx.ofQ (-(2 * amp 1)) * Cplx.ofQ (dip 1 k) else 0)) +
        (if |amp 2| > fieldThresh then Cplx.ofQ (-(2 * amp 2)) * Cplx.ofQ (dip 2 k) else 0) := by
  rw [fieldStep, show List.range 3 = [0, 1, 2] from rfl]
  simp only [List.foldl_cons, List.foldl_nil]
  by_cases h0 : |amp 0| > fieldThresh <;> by_cases h1 : |amp 1| > fieldThresh <;>
    by_cases h2 : |amp 2| > fieldThresh <;>
      simp [h0, h1, h2, matAddLoop_sq_lt, hk, mulCC, mulCQ, Cplx.ofQ_one_mul, Cplx.add_zero]

theorem fieldStep_ge (NB : Nat) (amp : Nat → ℚ) (dip : Nat → Buf ℚ) (f0 : Buf Cplx)
    (k : Nat) (hk : NB * NB ≤ k) :
    fieldStep NB amp dip f0 k = f0 k := by
  rw [fieldStep, show List.range 3 = [0, 1, 2] from rfl]
  simp only [List.foldl_cons, List.foldl_nil]
  by_cases h0 : |amp 0| > fieldThresh <;> by_cases h1 : |amp 1| > fieldThresh <;>
    by_cases h2 : |amp 2| > fieldThresh <;>
      simp [h0, h1, h2, matAddLoop_sq_ge, hk]

theorem fieldStep_id (NB : Nat) (amp : Nat → ℚ) (dip : Nat → Buf ℚ) (f0 : Buf Cplx)
    (h : ∀ a, a < 3 → ¬(|amp a| > fieldThresh)) :
    fieldStep NB amp dip f0 = f0 := by
  rw [fieldStep, show List.range 3 = [0, 1, 2] from rfl]
  simp only [List.foldl_cons, List.foldl_nil]
  rw [if_neg (h 0 (by omega)), if_neg (h 1 (by omega)), if_neg (h 2 (by omega))]

theorem formFock_cplx_fock_eq (c e : Buf Cplx → Buf Cplx) (p : EMPerturbation)
    (inc : Bool) (x : ℚ) (fr : Buf Cplx) (s : CState) :
    (formFock_cplx c e p inc x fr s).fock =
      fockStepField s.NB p s.lenElecDipole
        (fockStepGD s.NB s.nFock (formGD_cplx c e inc x fr s).GD
          (fockStepCore s.NB s.nCoreH s.coreH
            (fockStepZero (s.NB * s.NB) s.nFock s.fock))) := rfl

theorem formFock_cplx_NB (c e : Buf Cplx → Buf Cplx) (p : EMPerturbation) (inc : Bool)
    (x : ℚ) (fr : Buf Cplx) (s : CState) : (formFock_cplx c e p inc x fr s).NB = s.NB := rfl

theorem formFock_cplx_nFock (c e : Buf Cplx → Buf Cplx) (p : EMPerturbation) (inc : Bool)
    (x : ℚ) (fr : Buf Cplx) (s : CState) :
    (formFock_cplx c e p inc x fr s).nFock = s.nFock := rfl

theorem formFock_cplx_nK (c e : Buf Cplx → Buf Cplx) (p : EMPerturbation) (inc : Bool)
    (x : ℚ) (fr : Buf Cplx) (s : CState) : (formFock_cplx c e p inc x fr s).nK = s.nK := rfl

theorem formFock_cplx_nCoreH (c e : Buf Cplx → Buf Cplx) (p : EMPerturbation) (inc : Bool)
    (x : ℚ) (fr : Buf Cplx) (s : CState) :
    (formFock_cplx c e p inc x fr s).nCoreH = s.nCoreH := rfl

theorem formFock_cplx_onePDM (c e : Buf Cplx → Buf Cplx) (p : EMPerturbation) (inc : Bool)
    (x : ℚ) (fr : Buf Cplx) (s : CState) :
    (formFock_cplx c e p inc x fr s).onePDM = s.onePDM := rfl

theorem formFock_cplx_coreH (c e : Buf Cplx → Buf Cplx) (p : EMPerturbation) (inc : Bool)
    (x : ℚ) (fr : Buf Cplx) (s : CState) :
    (formFock_cplx c e p inc x fr s).coreH = s.coreH := rfl

theorem formFock_cplx_lenElecDipole (c e : Buf Cplx → Buf Cplx) (p : EMPerturbation)
    (inc : Bool) (x : ℚ) (fr : Buf Cplx) (s : CState) :
    (formFock_cplx c e p inc x fr s).lenElecDipole = s.lenElecDipole := rfl

theorem formFock_cplx_GD (c e : Buf Cplx → Buf Cplx) (p : EMPerturbation) (inc : Bool)
    (x : ℚ) (fr : Buf Cplx) (s : CState) :
    (formFock_cplx c e p inc x fr s).GD = (formGD_cplx c e inc x fr s).GD := rfl

/-- Offsets at or beyond NB² of any Fock component buffer are untouched by
a `formFock` call (every pipeline step addresses only the NB×NB block). -/
theorem formFock_cplx_fock_ge (c e : Buf Cplx → Buf Cplx) (p : EMPerturbation)
    (inc : Bool) (x : ℚ) (fr : Buf Cplx) (s : CState) (i k : Nat)
    (hk : s.NB * s.NB ≤ k) :
    (formFock_cplx c e p inc x fr s).fock i k = s.fock i k := by
  rw [formFock_cplx_fock_eq]
  rw [fockStepField]
  have hstep : ∀ g : Nat → Buf Cplx,
      fockStepGD s.NB s.nFock g
        (fockStepCore s.NB s.nCoreH s.coreH
          (fockStepZero (s.NB * s.NB) s.nFock s.fock)) i k = s.fock i k := by
    intro g
    rw [fockStepGD_ge _ _ _ _ _ _ hk, fockStepCore_ge _ _ _ _ _ _ hk, fockStepZero_eval]
    rw [if_neg (by omega)]
  by_cases hp : p.nFields ≠ 0
  · rw [if_pos hp]
    by_cases hi0 : i = 0
    · subst hi0
      rw [Function.update_same, fieldStep_ge _ _ _ _ _ hk]
      exact hstep _
    · rw [Function.update_noteq hi0]
      exact hstep _
  · rw [if_neg hp]
    exact hstep _

/-- The value of Fock after steps 2-4 (zero, core Hamiltonian copy, add
G[D]) for a component inside the collection and an offset inside the
matrix block. -/
theorem fockPipeline_val (NB nFock nCoreH : Nat) (coreH : Nat → Buf ℚ)
    (GDf : Nat → Buf Cplx) (f : Nat → Buf Cplx) (i k : Nat)
    (hi : i < nFock) (hk : k < NB * NB) :
    fockStepGD NB nFock GDf (fockStepCore NB nCoreH coreH (fockStepZero (NB * NB) nFock f)) i k =
      (if i = 0 then (⟨coreH 0 k, 0⟩ : Cplx)
       else if 1 ≤ i ∧ i < nCoreH then (⟨0, coreH i k⟩ : Cplx) else 0) + GDf i k := by
  rw [fockStepGD_eval _ _ _ _ _ _ hk, if_pos hi]
  rw [fockStepCore_eval _ _ _ _ _ _ hk]
  by_cases hi0 : i = 0
  · subst hi0
    rw [if_pos rfl, if_pos rfl]
    rw [fockStepZero_eval, if_pos ⟨hi, hk⟩]
    rfl
  · rw [if_neg hi0, if_neg hi0]
    by_cases hir : 1 ≤ i ∧ i < nCoreH
    · rw [if_pos hir, if_pos hir]
      rw [fockStepZero_eval, if_pos ⟨hi, hk⟩]
      rfl
    · rw [if_neg hir, if_neg hir]
      rw [fockStepZero_eval, if_pos ⟨hi, hk⟩]

/-- Closed form of a non-incremental `formFock` (complex path) Fock entry
inside the matrix block, in terms of the input state, the engine's
contraction results, and the perturbation amplitudes. -/
theorem formFock_cplx_fock_char (c e : Buf Cplx → Buf Cplx) (p : EMPerturbation)
    (x : ℚ) (fr : Buf Cplx) (s : CState) (i k : Nat)
    (hnK : 0 < s.nK) (hi : i < s.nFock) (hk : k < s.NB * s.NB) :
    (formFock_cplx c e p false x fr s).fock i k =
      if p.nFields ≠ 0 ∧ i = 0 then
        ((((if i = 0 then (⟨s.coreH 0 k, 0⟩ : Cplx)
            else if 1 ≤ i ∧ i < s.nCoreH then (⟨0, s.coreH i k⟩ : Cplx) else 0) +
           (if |x| > exchangeThresh then
              (if i = 0 then
                 Cplx.ofQ (-x) * e (s.onePDM 0) k + Cplx.ofQ (2 * (c (s.onePDM 0) k).re)
               else if i < s.nK then Cplx.ofQ (-x) * e (s.onePDM i) k
               else s.GD i k)
            else (if i = 0 then Cplx.ofQ (2 * (c (s.onePDM 0) k).re) else 0))) +
          (if |p.getAmp 0| > fieldThresh then
             Cplx.ofQ (-(2 * p.getAmp 0)) * Cplx.ofQ (s.lenElecDipole 0 k) else 0)) +
          (if |p.getAmp 1| > fieldThresh then
             Cplx.ofQ (-(2 * p.getAmp 1)) * Cplx.ofQ (s.lenElecDipole 1 k) else 0)) +
          (if |p.getAmp 2| > fieldThresh then
             Cplx.ofQ (-(2 * p.getAmp 2)) * Cplx.ofQ (s.lenElecDipole 2 k) else 0)
      else
        (if i = 0 then (⟨s.coreH 0 k, 0⟩ : Cplx)
         else if 1 ≤ i ∧ i < s.nCoreH then (⟨0, s.coreH i k⟩ : Cplx) else 0) +
        (if |x| > exchangeThresh then
           (if i = 0 then
              Cplx.ofQ (-x) * e (s.onePDM 0) k + Cplx.ofQ (2 * (c (s.onePDM 0) k).re)
            else if i < s.nK then Cplx.ofQ (-x) * e (s.onePDM i) k
            else s.GD i k)
         else (if i = 0 then Cplx.ofQ (2 * (c (s.onePDM 0) k).re) else 0)) := by
  have hGDval : (formGD_cplx c e false x fr s).GD i k =
      (if |x| > exchangeThresh then
         (if i = 0 then
            Cplx.ofQ (-x) * e (s.onePDM 0) k + Cplx.ofQ (2 * (c (s.onePDM 0) k).re)
          else if i < s.nK then Cplx.ofQ (-x) * e (s.onePDM i) k
          else s.GD i k)
       else (if i = 0 then Cplx.ofQ (2 * (c (s.onePDM 0) k).re) else 0)) := by
    by_cases hx : |x| > exchangeThresh
    · rw [if_pos hx]
      exact formGD_cplx_GD_big_false c e x fr s i k hx hnK hk
    · rw [if_neg hx]
      rw [formGD_cplx_GD_small c e false x fr s i k hx hi hk]
      rw [formGD_cplx_JScalar c e false x fr s k hk]
      simp
  rw [formFock_cplx_fock_eq, fockStepField]
  by_cases hp : p.nFields ≠ 0
  · by_cases hi0 : i = 0
    · subst hi0
      rw [if_pos hp, Function.update_same, if_pos ⟨hp, rfl⟩]
      rw [fieldStep_eval _ _ _ _ _ hk]
      rw [fockPipeline_val _ _ _ _ _ _ _ _ hi hk, hGDval]
    · rw [if_pos hp, Function.update_noteq hi0, if_neg (fun hcon => hi0 hcon.2)]
      rw [fockPipeline_val _ _ _ _ _ _ _ _ hi hk, hGDval]
  · rw [if_neg hp, if_neg (fun hcon => hp hcon.1)]
    rw [fockPipeline_val _ _ _ _ _ _ _ _ hi hk, hGDval]

/-- C1: for every no-transpose `MatAdd` call and every element (i,j) of the
M×N block, the result satisfies
`C[i + j*LDC] = ALPHA*A[i + j*LDA] + BETA*B[i + j*LDB]`, for arbitrary and
possibly distinct operand scalar types — the element products `m1`, `m2`
carry the implicit promotion of a real operand to complex.  `M ≤ LDC` is
the column-major addressing invariant of the data model (a leading
dimension accommodates the rows of the addressed block). -/
theorem MatAdd_entry {F1 F2 F3 S1 S2 : Type} [Add F3]
    (m1 : S1 → F1 → F3) (m2 : S2 → F2 → F3)
    (M N : Nat) (ALPHA : S1) (A : Buf F1) (LDA : Nat) (BETA : S2) (B : Buf F2)
    (LDB : Nat) (C : Buf F3) (LDC : Nat) (i j : Nat) (CR : Buf F3)
    (hM : M ≤ LDC) (hi : i < M) (hj : j < N)
    (hcall : MatAdd m1 m2 'N' 'N' M N ALPHA A LDA BETA B LDB C LDC = some CR) :
    CR (i + j * LDC) = m1 ALPHA (A (i + j * LDA)) + m2 BETA (B (i + j * LDB)) := by
  have h2 : MatAdd m1 m2 'N' 'N' M N ALPHA A LDA BETA B LDB C LDC =
      some (matAddLoop m1 m2 M N ALPHA A LDA BETA B LDB C LDC) := by
    simp [MatAdd]
  rw [h2] at hcall
  injection hcall with hCR
  rw [← hCR]
  exact matAddLoop_hit m1 m2 M N ALPHA A LDA BETA B LDB C LDC i j hM hi hj

/-- Witness for C1: a concrete mixed-type call (complex A and C, real B,
complex scales) at M = N = 2, evaluated at element (1,1). -/
theorem MatAdd_entry_witness :
    (matAddLoop mulCC mulCQ 2 2 (Cplx.ofQ 2) (fun _ => (⟨3, 1⟩ : Cplx)) 2
        (⟨0, 1⟩ : Cplx) (fun _ => (4 : ℚ)) 3 (fun _ => (0 : Cplx)) 2) (1 + 1 * 2) =
      mulCC (Cplx.ofQ 2) ⟨3, 1⟩ + mulCQ (⟨0, 1⟩ : Cplx) 4 :=
  MatAdd_entry mulCC mulCQ 2 2 (Cplx.ofQ 2) (fun _ => (⟨3, 1⟩ : Cplx)) 2
    (⟨0, 1⟩ : Cplx) (fun _ => (4 : ℚ)) 3 (fun _ => (0 : Cplx)) 2 1 1
    (matAddLoop mulCC mulCQ 2 2 (Cplx.ofQ 2) (fun _ => (⟨3, 1⟩ : Cplx)) 2
      (⟨0, 1⟩ : Cplx) (fun _ => (4 : ℚ)) 3 (fun _ => (0 : Cplx)) 2)
    (by decide) (by decide) (by decide) (by simp [MatAdd])

/-- C9: a `MatAdd` call with TRANSA or TRANSB different from 'N' violates
the assertion (modelled as the `none` result — a fast failure, not a
recoverable error), and with TRANSA = TRANSB = 'N' the assertion always
passes and the no-transpose loop is executed. -/
theorem MatAdd_assert {F1 F2 F3 S1 S2 : Type} [Add F3]
    (m1 : S1 → F1 → F3) (m2 : S2 → F2 → F3)
    (TRANSA TRANSB : Char) (M N : Nat) (ALPHA : S1) (A : Buf F1) (LDA : Nat)
    (BETA : S2) (B : Buf F2) (LDB : Nat) (C : Buf F3) (LDC : Nat) :
    (¬(TRANSA = 'N' ∧ TRANSB = 'N') →
      MatAdd m1 m2 TRANSA TRANSB M N ALPHA A LDA BETA B LDB C LDC = none) ∧
    (TRANSA = 'N' ∧ TRANSB = 'N' →
      MatAdd m1 m2 TRANSA TRANSB M N ALPHA A LDA BETA B LDB C LDC =
        some (matAddLoop m1 m2 M N ALPHA A LDA BETA B LDB C LDC)) := by
  refine ⟨fun h => ?_, fun h => ?_⟩
  · simp only [MatAdd]
    rw [if_neg h]
  · simp only [MatAdd]
    rw [if_pos h]

/-- Witness for C9: a transposed call fails the assertion; the no-transpose
call succeeds. -/
theorem MatAdd_assert_witness :
    MatAdd mulQQ mulQQ 'T' 'N' 1 1 (1 : ℚ) (fun _ => (1 : ℚ)) 1 (1 : ℚ)
      (fun _ => (1 : ℚ)) 1 (fun _ => (0 : ℚ)) 1 = none ∧
    MatAdd mulQQ mulQQ 'N' 'N' 1 1 (1 : ℚ) (fun _ => (1 : ℚ)) 1 (1 : ℚ)
      (fun _ => (1 : ℚ)) 1 (fun _ => (0 : ℚ)) 1 =
      some (matAddLoop mulQQ mulQQ 1 1 (1 : ℚ) (fun _ => (1 : ℚ)) 1 (1 : ℚ)
        (fun _ => (1 : ℚ)) 1 (fun _ => (0 : ℚ)) 1) :=
  ⟨(MatAdd_assert mulQQ mulQQ 'T' 'N' 1 1 (1 : ℚ) (fun _ => (1 : ℚ)) 1 (1 : ℚ)
      (fun _ => (1 : ℚ)) 1 (fun _ => (0 : ℚ)) 1).1 (by decide),
   (MatAdd_assert mulQQ mulQQ 'N' 'N' 1 1 (1 : ℚ) (fun _ => (1 : ℚ)) 1 (1 : ℚ)
      (fun _ => (1 : ℚ)) 1 (fun _ => (0 : ℚ)) 1).2 ⟨rfl, rfl⟩⟩

/-- C6: calling `formFock` twice in a row with `increment = false` on an
unchanged density, field descriptor and `xHFX` yields bit-identical Fock
component buffers (the second full build reproduces the first exactly, for
every component of the collection and every offset, whatever transient
allocator contents each call observed).  `0 < nK` is the state invariant
that the exchange collection contains at least the scalar component. -/
theorem formFock_idempotent (c e : Buf Cplx → Buf Cplx) (p : EMPerturbation) (x : ℚ)
    (fr1 fr2 : Buf Cplx) (s : CState) (i k : Nat) (hnK : 0 < s.nK) (hi : i < s.nFock) :
    (formFock_cplx c e p false x fr2 (formFock_cplx c e p false x fr1 s)).fock i k =
      (formFock_cplx c e p false x fr1 s).fock i k := by
  by_cases hk : k < s.NB * s.NB
  · have h1 := formFock_cplx_fock_char c e p x fr1 s i k hnK hi hk
    have h2 := formFock_cplx_fock_char c e p x fr2 (formFock_cplx c e p false x fr1 s) i k
      (by rw [formFock_cplx_nK]; exact hnK)
      (by rw [formFock_cplx_nFock]; exact hi)
      (by rw [formFock_cplx_NB]; exact hk)
    rw [h2, h1]
    simp only [formFock_cplx_coreH, formFock_cplx_onePDM, formFock_cplx_nCoreH,
      formFock_cplx_nK, formFock_cplx_lenElecDipole, formFock_cplx_NB, formFock_cplx_GD]
    by_cases hx : |x| > exchangeThresh
    · by_cases hi0 : i = 0
      · simp [hi0]
      · by_cases hiK : i < s.nK
        · simp [hx, hi0, hiK]
        · simp [hx, hi0, hiK,
            formGD_cplx_GD_stale c e false x fr1 s i hx hi0 (by omega)]
    · simp [hx]
  · push_neg at hk
    exact formFock_cplx_fock_ge c e p false x fr2 (formFock_cplx c e p false x fr1 s) i k
      (by rw [formFock_cplx_NB]; exact hk)

/-- C2: for every `formGD` call with `|xHFX| ≤ 1e-12`, in both scalar
instantiations: no exchange request is issued (the contraction list holds
exactly the one Coulomb request), and on return every `G[D]` component
inside the matrix block is zero except the scalar component, which holds
exactly `2·J` — independent of the prior `G[D]` and `K` contents. -/
theorem formGD_negligible_exchange (c e : Buf Cplx → Buf Cplx)
    (cR eR : Buf ℚ → Buf ℚ) (inc : Bool) (x : ℚ) (fr : Buf Cplx)
    (sC : CState) (sR : RState) (nK i k j m : Nat)
    (hx : |x| ≤ exchangeThresh) (hiC : i < sC.nFock) (hkC : k < sC.NB * sC.NB)
    (hjR : j < sR.nFock) (hmR : m < sR.NB * sR.NB) :
    formGD_contractKinds x nK = [TBKind.COULOMB] ∧
    (formGD_cplx c e inc x fr sC).GD i k =
      (if i = 0 then Cplx.ofQ (2 * (formGD_cplx c e inc x fr sC).JScalar k) else 0) ∧
    (formGD_real cR eR inc x sR).GD j m =
      (if j = 0 then 2 * (formGD_real cR eR inc x sR).JScalar m else 0) := by
  have hx' : ¬(|x| > exchangeThresh) := not_lt.mpr hx
  refine ⟨?_, ?_, ?_⟩
  · simp only [formGD_contractKinds]
    rw [if_neg hx']
    simp
  · exact formGD_cplx_GD_small c e inc x fr sC i k hx' hiC hkC
  · exact formGD_real_GD_small cR eR inc x sR j m hx' hjR hmR

/-- Witness for C2: concrete one-basis-function states, identity engine,
`xHFX = 0`. -/
theorem formGD_negligible_exchange_witness :
    formGD_contractKinds 0 1 = [TBKind.COULOMB] ∧
    (formGD_cplx (fun D => D) (fun D => D) false 0 (fun _ => (⟨9, 9⟩ : Cplx))
        ⟨1, 2, 1, 2, fun _ _ => ⟨1, 0⟩, fun _ _ => 0, fun _ _ => ⟨9, 9⟩, fun _ _ => ⟨5, 5⟩,
          fun _ _ => ⟨7, 7⟩, fun _ => 3, fun _ _ => 2, fun _ _ => 1, []⟩).GD 0 0 =
      (if (0 : Nat) = 0 then
        Cplx.ofQ (2 *
          (formGD_cplx (fun D => D) (fun D => D) false 0 (fun _ => (⟨9, 9⟩ : Cplx))
            ⟨1, 2, 1, 2, fun _ _ => ⟨1, 0⟩, fun _ _ => 0, fun _ _ => ⟨9, 9⟩, fun _ _ => ⟨5, 5⟩,
              fun _ _ => ⟨7, 7⟩, fun _ => 3, fun _ _ => 2, fun _ _ => 1, []⟩).JScalar 0)
       else 0) ∧
    (formGD_real (fun D => D) (fun D => D) false 0
        ⟨1, 2, 1, fun _ _ => 1, fun _ _ => 0, fun _ _ => 9, fun _ _ => 5, fun _ _ => 7,
          fun _ => 3⟩).GD 1 0 =
      (if (1 : Nat) = 0 then
        2 * (formGD_real (fun D => D) (fun D => D) false 0
          ⟨1, 2, 1, fun _ _ => 1, fun _ _ => 0, fun _ _ => 9, fun _ _ => 5, fun _ _ => 7,
            fun _ => 3⟩).JScalar 0
       else 0) :=
  formGD_negligible_exchange (fun D => D) (fun D => D) (fun D => D) (fun D => D) false 0
    (fun _ => (⟨9, 9⟩ : Cplx))
    ⟨1, 2, 1, 2, fun _ _ => ⟨1, 0⟩, fun _ _ => 0, fun _ _ => ⟨9, 9⟩, fun _ _ => ⟨5, 5⟩,
      fun _ _ => ⟨7, 7⟩, fun _ => 3, fun _ _ => 2, fun _ _ => 1, []⟩
    ⟨1, 2, 1, fun _ _ => 1, fun _ _ => 0, fun _ _ => 9, fun _ _ => 5, fun _ _ => 7, fun _ => 3⟩
    1 0 0 1 0 (by simp [exchangeThresh]) (by decide) (by decide) (by decide) (by decide)

/-- C10: with `|xHFX| ≤ 1e-12`, every exchange buffer `K[i]` is left
bit-for-bit unchanged by `formGD` — no exchange request writes it and no
zeroing of `K` occurs — in both scalar instantiations, even though `G[D]`
and `JScalar` are updated. -/
theorem formGD_k_frame (c e : Buf Cplx → Buf Cplx) (cR eR : Buf ℚ → Buf ℚ)
    (inc : Bool) (x : ℚ) (fr : Buf Cplx) (sC : CState) (sR : RState)
    (hx : |x| ≤ exchangeThresh) :
    (formGD_cplx c e inc x fr sC).K = sC.K ∧
    (formGD_real cR eR inc x sR).K = sR.K :=
  ⟨formGD_cplx_K_small c e inc x fr sC (not_lt.mpr hx),
   formGD_real_K_small cR eR inc x sR (not_lt.mpr hx)⟩

/-- Witness for C10 at concrete states with `xHFX = 0`. -/
theorem formGD_k_frame_witness :
    (formGD_cplx (fun D => D) (fun D => D) false 0 (fun _ => (⟨9, 9⟩ : Cplx))
        ⟨1, 2, 1, 2, fun _ _ => ⟨1, 0⟩, fun _ _ => 0, fun _ _ => ⟨9, 9⟩, fun _ _ => ⟨5, 5⟩,
          fun _ _ => ⟨7, 7⟩, fun _ => 3, fun _ _ => 2, fun _ _ => 1, []⟩).K =
      (fun _ _ => (⟨7, 7⟩ : Cplx)) ∧
    (formGD_real (fun D => D) (fun D => D) false 0
        ⟨1, 2, 1, fun _ _ => 1, fun _ _ => 0, fun _ _ => 9, fun _ _ => 5, fun _ _ => 7,
          fun _ => 3⟩).K = (fun _ _ => (7 : ℚ)) :=
  formGD_k_frame (fun D => D) (fun D => D) (fun D => D) (fun D => D) false 0
    (fun _ => (⟨9, 9⟩ : Cplx))
    ⟨1, 2, 1, 2, fun _ _ => ⟨1, 0⟩, fun _ _ => 0, fun _ _ => ⟨9, 9⟩, fun _ _ => ⟨5, 5⟩,
      fun _ _ => ⟨7, 7⟩, fun _ => 3, fun _ _ => 2, fun _ _ => 1, []⟩
    ⟨1, 2, 1, fun _ _ => 1, fun _ _ => 0, fun _ _ => 9, fun _ _ => 5, fun _ _ => 7, fun _ => 3⟩
    (by simp [exchangeThresh])

/-- C7: the Coulomb accumulation buffer `JContract` is zeroed before the
contraction unless incrementing with the real (double) scalar type, in
which case it still holds the prior canonical Coulomb contents and the
contraction accumulates in place on them. -/
theorem formGD_jzero_policy (cR eR : Buf ℚ → Buf ℚ) (inc : Bool) (x : ℚ)
    (NBc kC : Nat) (frC : Buf Cplx) (s : RState) (k : Nat)
    (hk : k < s.NB * s.NB) (hkC : kC < NBc * NBc) :
    JContractPre_real true s k = s.JScalar k ∧
    JContractPre_real false s k = 0 ∧
    JContractPre_cplx inc NBc frC kC = 0 ∧
    (formGD_real cR eR true x s).JScalar k = s.JScalar k + cR (s.deltaOnePDM 0) k := by
  refine ⟨?_, ?_, ?_, ?_⟩
  · simp [JContractPre_real]
  · simp [JContractPre_real, zeroFirst, hk]
  · simp [JContractPre_cplx, zeroFirst, hkC]
  · rw [formGD_real_JScalar cR eR true x s k hk]
    simp

/-- Witness for C7 at a concrete real state with prior `JScalar = 3`. -/
theorem formGD_jzero_policy_witness :
    JContractPre_real true
        ⟨1, 2, 1, fun _ _ => 1, fun _ _ => 0, fun _ _ => 9, fun _ _ => 5, fun _ _ => 7,
          fun _ => 3⟩ 0 = 3 ∧
    JContractPre_real false
        ⟨1, 2, 1, fun _ _ => 1, fun _ _ => 0, fun _ _ => 9, fun _ _ => 5, fun _ _ => 7,
          fun _ => 3⟩ 0 = 0 ∧
    JContractPre_cplx true 1 (fun _ => (⟨9, 9⟩ : Cplx)) 0 = 0 ∧
    (formGD_real (fun D => D) (fun D => D) true 1
        ⟨1, 2, 1, fun _ _ => 1, fun _ _ => 0, fun _ _ => 9, fun _ _ => 5, fun _ _ => 7,
          fun _ => 3⟩).JScalar 0 = 3 + 0 :=
  formGD_jzero_policy (fun D => D) (fun D => D) true 1 1 0 (fun _ => (⟨9, 9⟩ : Cplx))
    ⟨1, 2, 1, fun _ _ => 1, fun _ _ => 0, fun _ _ => 9, fun _ _ => 5, fun _ _ => 7, fun _ => 3⟩
    0 (by decide) (by decide)

/-- C8: in the complex path of `formGD`, a transient NB×NB Coulomb buffer
is obtained from the shared allocator and released before return on every
path (the allocator log gains exactly one malloc of NB² scalars followed by
one free), and its real content is folded back into the canonical real
`JScalar` storage — added onto the prior content when incrementing,
overwriting it otherwise. -/
theorem formGD_transient_j (c e : Buf Cplx → Buf Cplx) (inc : Bool) (x : ℚ)
    (fr : Buf Cplx) (s : CState) (k : Nat) (hk : k < s.NB * s.NB) :
    (formGD_cplx c e inc x fr s).mmLog =
      s.mmLog ++ [MMEvent.malloc (s.NB * s.NB), MMEvent.free] ∧
    (formGD_cplx c e inc x fr s).JScalar k =
      (c ((if inc then s.deltaOnePDM else s.onePDM) 0) k).re +
        (if inc then s.JScalar k else 0) := by
  constructor
  · simp only [formGD_cplx]
    rw [List.append_assoc]
    rfl
  · exact formGD_cplx_JScalar c e inc x fr s k hk

/-- Witness for C8 at a concrete complex state, incrementing, with prior
`JScalar = 3` and a zero delta density. -/
theorem formGD_transient_j_witness :
    (formGD_cplx (fun D => D) (fun D => D) true 0 (fun _ => (⟨9, 9⟩ : Cplx))
        ⟨1, 2, 1, 2, fun _ _ => ⟨1, 0⟩, fun _ _ => 0, fun _ _ => ⟨9, 9⟩, fun _ _ => ⟨5, 5⟩,
          fun _ _ => ⟨7, 7⟩, fun _ => 3, fun _ _ => 2, fun _ _ => 1, []⟩).mmLog =
      [MMEvent.malloc 1, MMEvent.free] ∧
    (formGD_cplx (fun D => D) (fun D => D) true 0 (fun _ => (⟨9, 9⟩ : Cplx))
        ⟨1, 2, 1, 2, fun _ _ => ⟨1, 0⟩, fun _ _ => 0, fun _ _ => ⟨9, 9⟩, fun _ _ => ⟨5, 5⟩,
          fun _ _ => ⟨7, 7⟩, fun _ => 3, fun _ _ => 2, fun _ _ => 1, []⟩).JScalar 0 =
      ((0 : Cplx)).re + (3 : ℚ) :=
  formGD_transient_j (fun D => D) (fun D => D) true 0 (fun _ => (⟨9, 9⟩ : Cplx))
    ⟨1, 2, 1, 2, fun _ _ => ⟨1, 0⟩, fun _ _ => 0, fun _ _ => ⟨9, 9⟩, fun _ _ => ⟨5, 5⟩,
      fun _ _ => ⟨7, 7⟩, fun _ => 3, fun _ _ => 2, fun _ _ => 1, []⟩
    0 (by decide)

/-- C4: for every `formFock` call (complex path) whose component counts
agree, inside the matrix block each Fock component is rebuilt from scratch:
the scalar component holds the core Hamiltonian on the real axis and every
remaining component holds it on the imaginary axis, with `G[D]` added on
top with weight one on both operands (stated for every component on a
field-free call, and for every non-scalar component on any call — the
scalar component of a call with fields additionally receives the
perturbation terms, see the field claim). -/
theorem formFock_core_gd (c e : Buf Cplx → Buf Cplx) (p : EMPerturbation)
    (inc : Bool) (x : ℚ) (fr : Buf Cplx) (s : CState) (i k : Nat)
    (hi : i < s.nFock) (hk : k < s.NB * s.NB) (hc : s.nCoreH = s.nFock) :
    (p.nFields = 0 →
      (formFock_cplx c e p inc x fr s).fock i k =
        (if i = 0 then (⟨s.coreH 0 k, 0⟩ : Cplx) else (⟨0, s.coreH i k⟩ : Cplx)) +
          (formGD_cplx c e inc x fr s).GD i k) ∧
    (i ≠ 0 →
      (formFock_cplx c e p inc x fr s).fock i k =
        (⟨0, s.coreH i k⟩ : Cplx) + (formGD_cplx c e inc x fr s).GD i k) := by
  constructor
  · intro hp0
    rw [formFock_cplx_fock_eq, fockStepField]
    rw [if_neg (by simp [hp0])]
    rw [fockPipeline_val _ _ _ _ _ _ _ _ hi hk]
    by_cases hi0 : i = 0
    · simp [hi0]
    · rw [if_neg hi0, if_pos (show 1 ≤ i ∧ i < s.nCoreH by omega), if_neg hi0]
  · intro hi0
    rw [formFock_cplx_fock_eq, fockStepField]
    by_cases hp : p.nFields ≠ 0
    · rw [if_pos hp, Function.update_noteq hi0]
      rw [fockPipeline_val _ _ _ _ _ _ _ _ hi hk]
      rw [if_neg hi0, if_pos (show 1 ≤ i ∧ i < s.nCoreH by omega)]
    · rw [if_neg hp]
      rw [fockPipeline_val _ _ _ _ _ _ _ _ hi hk]
      rw [if_neg hi0, if_pos (show 1 ≤ i ∧ i < s.nCoreH by omega)]

/-- Witness for C4: a field-free call inspected at the scalar component and
a call with a configured field inspected at the spin component. -/
theorem formFock_core_gd_witness :
    (formFock_cplx (fun D => D) (fun D => D) ⟨0, 0, 0, 0⟩ false 0 (fun _ => (⟨9, 9⟩ : Cplx))
        ⟨1, 2, 1, 2, fun _ _ => ⟨1, 0⟩, fun _ _ => 0, fun _ _ => ⟨9, 9⟩, fun _ _ => ⟨5, 5⟩,
          fun _ _ => ⟨7, 7⟩, fun _ => 3, fun _ _ => 2, fun _ _ => 1, []⟩).fock 0 0 =
      (⟨2, 0⟩ : Cplx) +
        (formGD_cplx (fun D => D) (fun D => D) false 0 (fun _ => (⟨9, 9⟩ : Cplx))
          ⟨1, 2, 1, 2, fun _ _ => ⟨1, 0⟩, fun _ _ => 0, fun _ _ => ⟨9, 9⟩, fun _ _ => ⟨5, 5⟩,
            fun _ _ => ⟨7, 7⟩, fun _ => 3, fun _ _ => 2, fun _ _ => 1, []⟩).GD 0 0 ∧
    (formFock_cplx (fun D => D) (fun D => D) ⟨1, 1, 0, 0⟩ false 0 (fun _ => (⟨9, 9⟩ : Cplx))
        ⟨1, 2, 1, 2, fun _ _ => ⟨1, 0⟩, fun _ _ => 0, fun _ _ => ⟨9, 9⟩, fun _ _ => ⟨5, 5⟩,
          fun _ _ => ⟨7, 7⟩, fun _ => 3, fun _ _ => 2, fun _ _ => 1, []⟩).fock 1 0 =
      (⟨0, 2⟩ : Cplx) +
        (formGD_cplx (fun D => D) (fun D => D) false 0 (fun _ => (⟨9, 9⟩ : Cplx))
          ⟨1, 2, 1, 2, fun _ _ => ⟨1, 0⟩, fun _ _ => 0, fun _ _ => ⟨9, 9⟩, fun _ _ => ⟨5, 5⟩,
            fun _ _ => ⟨7, 7⟩, fun _ => 3, fun _ _ => 2, fun _ _ => 1, []⟩).GD 1 0 :=
  ⟨(formFock_core_gd (fun D => D) (fun D => D) ⟨0, 0, 0, 0⟩ false 0 (fun _ => (⟨9, 9⟩ : Cplx))
      ⟨1, 2, 1, 2, fun _ _ => ⟨1, 0⟩, fun _ _ => 0, fun _ _ => ⟨9, 9⟩, fun _ _ => ⟨5, 5⟩,
        fun _ _ => ⟨7, 7⟩, fun _ => 3, fun _ _ => 2, fun _ _ => 1, []⟩ 0 0
      (by decide) (by decide) (by decide)).1 rfl,
   (formFock_core_gd (fun D => D) (fun D => D) ⟨1, 1, 0, 0⟩ false 0 (fun _ => (⟨9, 9⟩ : Cplx))
      ⟨1, 2, 1, 2, fun _ _ => ⟨1, 0⟩, fun _ _ => 0, fun _ _ => ⟨9, 9⟩, fun _ _ => ⟨5, 5⟩,
        fun _ _ => ⟨7, 7⟩, fun _ => 3, fun _ _ => 2, fun _ _ => 1, []⟩ 1 0
      (by decide) (by decide) (by decide)).2 (by decide)⟩

/-- C5: on a `formFock` call with a non-empty perturbation descriptor the
field amplitude is evaluated exactly once, and the scalar Fock component
receives, on top of the no-field result, the term
`−2·amplitude·(dipole integral)` for each of the three axes whose amplitude
magnitude exceeds the threshold, while non-scalar components coincide with
the no-field result; when every axis amplitude is below the threshold the
resulting Fock buffers are bit-identical to those of a no-field call. -/
theorem formFock_field_terms (c e : Buf Cplx → Buf Cplx) (p : EMPerturbation)
    (inc : Bool) (x : ℚ) (fr : Buf Cplx) (s : CState) (i k : Nat)
    (hk : k < s.NB * s.NB) :
    (p.nFields ≠ 0 → formFock_ampEvals p = 1) ∧
    (p.nFields ≠ 0 →
      (formFock_cplx c e p inc x fr s).fock 0 k =
        (((formFock_cplx c e ⟨0, p.amp0, p.amp1, p.amp2⟩ inc x fr s).fock 0 k +
          (if |p.getAmp 0| > fieldThresh then
             Cplx.ofQ (-(2 * p.getAmp 0)) * Cplx.ofQ (s.lenElecDipole 0 k) else 0)) +
          (if |p.getAmp 1| > fieldThresh then
             Cplx.ofQ (-(2 * p.getAmp 1)) * Cplx.ofQ (s.lenElecDipole 1 k) else 0)) +
          (if |p.getAmp 2| > fieldThresh then
             Cplx.ofQ (-(2 * p.getAmp 2)) * Cplx.ofQ (s.lenElecDipole 2 k) else 0)) ∧
    (i ≠ 0 →
      (formFock_cplx c e p inc x fr s).fock i k =
        (formFock_cplx c e ⟨0, p.amp0, p.amp1, p.amp2⟩ inc x fr s).fock i k) ∧
    ((∀ a, a < 3 → |p.getAmp a| ≤ fieldThresh) →
      (formFock_cplx c e p inc x fr s).fock =
        (formFock_cplx c e ⟨0, p.amp0, p.amp1, p.amp2⟩ inc x fr s).fock) := by
  refine ⟨fun hp => ?_, fun hp => ?_, fun hi0 => ?_, fun hsmall => ?_⟩
  · simp [formFock_ampEvals, hp]
  · rw [formFock_cplx_fock_eq c e p inc x fr s,
      formFock_cplx_fock_eq c e ⟨0, p.amp0, p.amp1, p.amp2⟩ inc x fr s]
    simp only [fockStepField]
    rw [if_pos hp,
      if_neg (by simp : ¬((⟨0, p.amp0, p.amp1, p.amp2⟩ : EMPerturbation).nFields ≠ 0))]
    rw [Function.update_same]
    rw [fieldStep_eval _ _ _ _ _ hk]
  · rw [formFock_cplx_fock_eq c e p inc x fr s,
      formFock_cplx_fock_eq c e ⟨0, p.amp0, p.amp1, p.amp2⟩ inc x fr s]
    simp only [fockStepField]
    rw [if_neg (by simp : ¬((⟨0, p.amp0, p.amp1, p.amp2⟩ : EMPerturbation).nFields ≠ 0))]
    by_cases hp : p.nFields ≠ 0
    · rw [if_pos hp, Function.update_noteq hi0]
    · rw [if_neg hp]
  · rw [formFock_cplx_fock_eq c e p inc x fr s,
      formFock_cplx_fock_eq c e ⟨0, p.amp0, p.amp1, p.amp2⟩ inc x fr s]
    simp only [fockStepField]
    rw [if_neg (by simp : ¬((⟨0, p.amp0, p.amp1, p.amp2⟩ : EMPerturbation).nFields ≠ 0))]
    by_cases hp : p.nFields ≠ 0
    · rw [if_pos hp]
      rw [fieldStep_id _ _ _ _ (fun a ha => not_lt.mpr (hsmall a ha))]
      exact Function.update_eq_self 0 _
    · rw [if_neg hp]

/-- Witness for C5: a descriptor with one configured field of unit
amplitude along the first axis levies the per-axis terms, and a descriptor
whose every amplitude is zero reproduces the no-field buffers. -/
theorem formFock_field_terms_witness :
    formFock_ampEvals ⟨1, 1, 0, 0⟩ = 1 ∧
    (formFock_cplx (fun D => D) (fun D => D) ⟨1, 1, 0, 0⟩ false 0 (fun _ => (⟨9, 9⟩ : Cplx))
        ⟨1, 2, 1, 2, fun _ _ => ⟨1, 0⟩, fun _ _ => 0, fun _ _ => ⟨9, 9⟩, fun _ _ => ⟨5, 5⟩,
          fun _ _ => ⟨7, 7⟩, fun _ => 3, fun _ _ => 2, fun _ _ => 1, []⟩).fock 0 0 =
      (((formFock_cplx (fun D => D) (fun D => D) ⟨0, 1, 0, 0⟩ false 0
            (fun _ => (⟨9, 9⟩ : Cplx))
            ⟨1, 2, 1, 2, fun _ _ => ⟨1, 0⟩, fun _ _ => 0, fun _ _ => ⟨9, 9⟩, fun _ _ => ⟨5, 5⟩,
              fun _ _ => ⟨7, 7⟩, fun _ => 3, fun _ _ => 2, fun _ _ => 1, []⟩).fock 0 0 +
        (if |(1 : ℚ)| > fieldThresh then Cplx.ofQ (-(2 * 1)) * Cplx.ofQ 1 else 0)) +
        (if |(0 : ℚ)| > fieldThresh then Cplx.ofQ (-(2 * 0)) * Cplx.ofQ 1 else 0)) +
        (if |(0 : ℚ)| > fieldThresh then Cplx.ofQ (-(2 * 0)) * Cplx.ofQ 1 else 0) ∧
    (formFock_cplx (fun D => D) (fun D => D) ⟨1, 0, 0, 0⟩ false 0 (fun _ => (⟨9, 9⟩ : Cplx))
        ⟨1, 2, 1, 2, fun _ _ => ⟨1, 0⟩, fun _ _ => 0, fun _ _ => ⟨9, 9⟩, fun _ _ => ⟨5, 5⟩,
          fun _ _ => ⟨7, 7⟩, fun _ => 3, fun _ _ => 2, fun _ _ => 1, []⟩).fock =
      (formFock_cplx (fun D => D) (fun D => D) ⟨0, 0, 0, 0⟩ false 0 (fun _ => (⟨9, 9⟩ : Cplx))
        ⟨1, 2, 1, 2, fun _ _ => ⟨1, 0⟩, fun _ _ => 0, fun _ _ => ⟨9, 9⟩, fun _ _ => ⟨5, 5⟩,
          fun _ _ => ⟨7, 7⟩, fun _ => 3, fun _ _ => 2, fun _ _ => 1, []⟩).fock :=
  ⟨(formFock_field_terms (fun D => D) (fun D => D) ⟨1, 1, 0, 0⟩ false 0
      (fun _ => (⟨9, 9⟩ : Cplx))
      ⟨1, 2, 1, 2, fun _ _ => ⟨1, 0⟩, fun _ _ => 0, fun _ _ => ⟨9, 9⟩, fun _ _ => ⟨5, 5⟩,
        fun _ _ => ⟨7, 7⟩, fun _ => 3, fun _ _ => 2, fun _ _ => 1, []⟩ 0 0 (by decide)).1
      (by decide),
   (formFock_field_terms (fun D => D) (fun D => D) ⟨1, 1, 0, 0⟩ false 0
      (fun _ => (⟨9, 9⟩ : Cplx))
      ⟨1, 2, 1, 2, fun _ _ => ⟨1, 0⟩, fun _ _ => 0, fun _ _ => ⟨9, 9⟩, fun _ _ => ⟨5, 5⟩,
        fun _ _ => ⟨7, 7⟩, fun _ => 3, fun _ _ => 2, fun _ _ => 1, []⟩ 0 0 (by decide)).2.1
      (by decide),
   (formFock_field_terms (fun D => D) (fun D => D) ⟨1, 0, 0, 0⟩ false 0
      (fun _ => (⟨9, 9⟩ : Cplx))
      ⟨1, 2, 1, 2, fun _ _ => ⟨1, 0⟩, fun _ _ => 0, fun _ _ => ⟨9, 9⟩, fun _ _ => ⟨5, 5⟩,
        fun _ _ => ⟨7, 7⟩, fun _ => 3, fun _ _ => 2, fun _ _ => 1, []⟩ 0 0 (by decide)).2.2.2
      (by intro a ha
          interval_cases a <;> simp [EMPerturbation.getAmp, fieldThresh])⟩

/-- Witness for C6: two consecutive non-incremental builds on a concrete
state, with different transient allocator contents in the two calls, agree
at the spin Fock component. -/
theorem formFock_idempotent_witness :
    (formFock_cplx (fun D => D) (fun D => D) ⟨1, 1, 0, 0⟩ false 0 (fun _ => (⟨8, 8⟩ : Cplx))
        (formFock_cplx (fun D => D) (fun D => D) ⟨1, 1, 0, 0⟩ false 0
          (fun _ => (⟨4, 4⟩ : Cplx))
          ⟨1, 2, 1, 2, fun _ _ => ⟨1, 0⟩, fun _ _ => 0, fun _ _ => ⟨9, 9⟩, fun _ _ => ⟨5, 5⟩,
            fun _ _ => ⟨7, 7⟩, fun _ => 3, fun _ _ => 2, fun _ _ => 1, []⟩)).fock 1 0 =
      (formFock_cplx (fun D => D) (fun D => D) ⟨1, 1, 0, 0⟩ false 0 (fun _ => (⟨4, 4⟩ : Cplx))
        ⟨1, 2, 1, 2, fun _ _ => ⟨1, 0⟩, fun _ _ => 0, fun _ _ => ⟨9, 9⟩, fun _ _ => ⟨5, 5⟩,
          fun _ _ => ⟨7, 7⟩, fun _ => 3, fun _ _ => 2, fun _ _ => 1, []⟩).fock 1 0 :=
  formFock_idempotent (fun D => D) (fun D => D) ⟨1, 1, 0, 0⟩ 0 (fun _ => (⟨4, 4⟩ : Cplx))
    (fun _ => (⟨8, 8⟩ : Cplx))
    ⟨1, 2, 1, 2, fun _ _ => ⟨1, 0⟩, fun _ _ => 0, fun _ _ => ⟨9, 9⟩, fun _ _ => ⟨5, 5⟩,
      fun _ _ => ⟨7, 7⟩, fun _ => 3, fun _ _ => 2, fun _ _ => 1, []⟩ 1 0
    (by decide) (by decide)

/-- C3 counterexample: the propagation-layer `formFock(increment, t)`
ignores its `t` parameter — a perturbation source that distinguishes times
and a state whose stored time `curState.xTime = 0` yield, on a call with
`t = 1`, a forwarded descriptor different from the source evaluated at
`t`. -/
theorem realTime_formFock_time_cex :
    (RealTime_formFock ⟨fun tau => ⟨0, tau, 0, 0⟩, 0⟩ false 1).1 ≠
      (fun tau => (⟨0, tau, 0, 0⟩ : EMPerturbation)) 1 := by
  intro h
  have h0 := congrArg EMPerturbation.amp0 h
  simp [RealTime_formFock] at h0

/-- C3 (amended): the descriptor forwarded to the Fock assembler is the one
obtained from the perturbation source evaluated at the propagator state's
stored current time `curState.xTime` — the caller-supplied `t` argument is
ignored — and the increment flag is forwarded unchanged. -/
theorem realTime_formFock_forwards (rt : RTState) (inc : Bool) (t t' : ℚ) :
    RealTime_formFock rt inc t = (rt.pertSource rt.xTime, inc) ∧
    RealTime_formFock rt inc t = RealTime_formFock rt inc t' :=
  ⟨rfl, rfl⟩

end ChronusQ
